import Mathlib

/-!
Shallow embedding of the core of the movie-profanity-detector pipeline:
the subtitle matcher (`DetectorService.check_srt`), the timestamp
formatting it performs, the ffmpeg command built by
`DetectorService.extract_audio_segment_async`, the gather-and-filter
orchestrator `DetectorService.extract_audio_segments`, the filename
id generation (`random.randint(1, 1001)` with the retry loop of the
`process_audio` endpoint), the mock transcription stub
`SpeechService._mock_process_timestamps`, and the batch loop
`SpeechService.batch_process_audio`.

Randomness is modelled by an explicit stream `rand : Nat → Nat` of raw
draws; `random.randint(1, 1001)` maps a raw draw into the inclusive
range 1..1001, exactly as Python's `randint` does.  Fallible calls are
modelled with `Option`/`Except`; float times of the mock stub (all
exact multiples of 0.5) are modelled as rationals.
-/

namespace MPD

/-- A pysrt `SubRipTime`: hours, minutes, seconds, milliseconds.  pysrt
renders it as `HH:MM:SS,mmm` (comma before the milliseconds). -/
structure SubRipTime where
  hours : Nat
  minutes : Nat
  seconds : Nat
  milliseconds : Nat
deriving DecidableEq, Repr

/-- Zero-pad a number to (at least) two digits, as `%02d` does. -/
def pad2 (n : Nat) : String :=
  if n < 10 then "0" ++ toString n else toString n

/-- Zero-pad a number to (at least) three digits, as `%03d` does. -/
def pad3 (n : Nat) : String :=
  if n < 10 then "00" ++ toString n
  else if n < 100 then "0" ++ toString n
  else toString n

/-- pysrt's `str(SubRipTime)` rendering: `HH:MM:SS,mmm`. -/
def SubRipTime.render (t : SubRipTime) : String :=
  pad2 t.hours ++ ":" ++ pad2 t.minutes ++ ":" ++ pad2 t.seconds ++ "," ++ pad3 t.milliseconds

/-- Python's `s.replace(",", ".")`: every comma becomes a point.  For a
one-character pattern this is a character map. -/
def replaceCommaDot (s : String) : String :=
  ⟨s.data.map (fun c => if c = ',' then '.' else c)⟩

/-- The timestamp string the matcher emits for a subtitle time:
`str(t).replace(",", ".")` (detector.py lines 54-55). -/
def fmtTime (t : SubRipTime) : String :=
  replaceCommaDot t.render

/-- One subtitle line as `check_srt` consumes it: a start time, an end
time (pysrt's `line.end`; named `stop` here since `end` is reserved),
and the text. -/
structure SubtitleLine where
  start : SubRipTime
  stop : SubRipTime
  text : String
deriving DecidableEq, Repr

/-- A detection record appended by `check_srt`: the matched word, the
formatted start/stop times and the full line text as context. -/
structure Match where
  word : String
  start_time : String
  stop_time : String
  context : String
deriving DecidableEq, Repr

/-- Python's `s.lower()`: lowercase every character.  (Python handles
full Unicode case folding; the repository only matches ASCII words, and
both sides of every claim use the same lowering, so the per-character
map is the faithful model.) -/
def strLower (s : String) : String :=
  ⟨s.data.map Char.toLower⟩

/-- Whether the first character list is an initial segment of the
second (the helper of the substring check below). -/
def isPrefixChars : List Char → List Char → Bool
  | [], _ => true
  | _ :: _, [] => false
  | a :: as, b :: bs => a == b && isPrefixChars as bs

/-- Python's `in` on strings, at the character-list level: the needle
occurs contiguously somewhere in the hay. -/
def isSubstring (needle : List Char) : List Char → Bool
  | [] => needle.isEmpty
  | c :: t => isPrefixChars needle (c :: t) || isSubstring needle t

/-- The condition of detector.py line 50: `word.lower() in line.text.lower()`
(case-insensitive substring containment). -/
def matchesLine (word : String) (line : SubtitleLine) : Bool :=
  isSubstring (strLower word).data (strLower line.text).data

/-- The record built at detector.py lines 51-57 for a hit. -/
def mkMatch (line : SubtitleLine) (word : String) : Match :=
  { word := word
    start_time := fmtTime line.start
    stop_time := fmtTime line.stop
    context := line.text }

/-- `DetectorService.check_srt` (detector.py lines 43-59): iterate over
subtitle lines (outer loop) and over the word list (inner loop),
appending a record for every case-insensitive substring hit. -/
def check_srt (srt_file : List SubtitleLine) (words_list : List String) : List Match :=
  srt_file.foldl
    (fun acc line =>
      words_list.foldl
        (fun acc2 word =>
          if matchesLine word line then acc2 ++ [mkMatch line word] else acc2)
        acc)
    []

/-- The ffmpeg argument vector of detector.py lines 71-80: seek to the
detection's `start_time`, read the input, take a duration of the
detection's `stop_time` (the field verbatim), encode with libmp3lame at
320k into the output file, overwriting it. -/
def build_command (video_path : String) (detection : Match) (output_file : String) : List String :=
  ["ffmpeg",
   "-ss", detection.start_time,
   "-i", video_path,
   "-t", detection.stop_time,
   "-acodec", "libmp3lame",
   "-b:a", "320k",
   output_file,
   "-y"]

/-- A match enriched with the path of its extracted clip
(`{**detection, "audio_path": result}` of detector.py lines 113-116). -/
structure AudioSegment where
  detection : Match
  audio_path : String
deriving DecidableEq, Repr

/-- `DetectorService.extract_audio_segments` (detector.py lines 98-118)
after `asyncio.gather(..., return_exceptions=True)`: the per-task
outcomes arrive as a list `results` parallel to `detections` (an
`Except` holds either the output path or the exception text); failures
are logged and skipped, successes are appended with their path. -/
def extract_audio_segments (detections : List Match) (results : List (Except String String)) :
    List AudioSegment :=
  (detections.zip results).foldl
    (fun acc dr =>
      match dr.2 with
      | Except.error _ => acc
      | Except.ok path => acc ++ [⟨dr.1, path⟩])
    []

/-- Whether a gathered result is an exception. -/
def isFailure (r : Except String String) : Bool :=
  match r with
  | Except.error _ => true
  | Except.ok _ => false

/-- Python's `random.randint(1, 1001)`: the `k`-th raw draw of the
stream mapped into the inclusive range 1..1001 (both endpoints
included, per the semantics of `randint`). -/
def randint_1_1001 (rand : Nat → Nat) (k : Nat) : Nat :=
  1 + rand k % 1001

/-- The retry loop of detection.py lines 127-129: draw, and redraw while
the value is already in `gen_number_set`.  `fuel` bounds the number of
draws (the Python loop has no bound and can run forever on a saturated
set); `k` is the position in the random stream.  Returns the chosen
number and the next stream position. -/
def allocate_loop (rand : Nat → Nat) : Nat → Nat → Finset Nat → Option (Nat × Nat)
  | 0, _, _ => none
  | fuel + 1, k, used =>
    let c := randint_1_1001 rand k
    if c ∈ used then allocate_loop rand fuel (k + 1) used else some (c, k + 1)

/-- One allocation of detection.py lines 127-130: the retry loop
followed by `gen_number_set.add(create_number)`.  Returns the chosen
number, the next stream position, and the updated set. -/
def allocate (rand : Nat → Nat) (fuel k : Nat) (used : Finset Nat) :
    Option (Nat × Nat × Finset Nat) :=
  match allocate_loop rand fuel k used with
  | none => none
  | some (c, k2) => some (c, k2, insert c used)

/-- The sequence of filename ids generated by the `process_audio`
endpoint loop (detection.py lines 124-133) over `n` detections,
threading the stream position and the `gen_number_set` through the
allocations. -/
def process_audio_ids (rand : Nat → Nat) (fuel : Nat) : Nat → Nat → Finset Nat → Option (List Nat)
  | 0, _, _ => some []
  | n + 1, k, used =>
    match allocate rand fuel k used with
    | none => none
    | some (c, k2, used2) => Option.map (fun l => c :: l) (process_audio_ids rand fuel n k2 used2)

/-- The filename ids drawn by a batch of `K` concurrent
`extract_audio_segment_async` tasks (detector.py line 64): each task
performs a single `random.randint(1, 1001)` with no shared used-id set,
so task `i` consumes one position of the stream and keeps whatever it
drew. -/
def orchestrator_batch_ids (rand : Nat → Nat) (K : Nat) : List Nat :=
  (List.range K).map (fun i => randint_1_1001 rand i)

/-- A mock speech record (`models.MovieSpeechResponse`) as built by
`_mock_process_timestamps`: movie name, the word, and the start/stop
times.  The Python stores `str(start_time)` of a float; all values are
exact, so times are modelled as rationals. -/
structure SpeechRecord where
  movie_name : String
  words : String
  movie_start_time : ℚ
  movie_stop_time : ℚ
deriving DecidableEq, Repr

/-- The loop of speech.py lines 62-76 with the running `current_time`
explicit: each word gets the interval `[current, current + 2]` and the
cursor advances by 3. -/
def mockLoop (movie_name : String) (current : ℚ) : List String → List SpeechRecord
  | [] => []
  | w :: ws =>
    ⟨movie_name, w, current, current + 2⟩ :: mockLoop movie_name (current + 3) ws

/-- `SpeechService._mock_process_timestamps` (speech.py lines 44-79):
`current_time` starts at 0.0 and the loop above runs over the word
list; the records are the rows added to the session in order. -/
def mock_process_timestamps (movie_name : String) (words_list : List String) :
    List SpeechRecord :=
  mockLoop movie_name 0 words_list

/-- One entry of the list returned by `batch_process_audio`: either the
success dictionary returned by `process_audio` (its `movie_name`; the
statistics and message are irrelevant to the claims), or the
`{success: false, audio_file, error}` dictionary. -/
inductive BatchEntry where
  | success (movie_name : String)
  | failure (audio_file : String) (error : String)
deriving DecidableEq, Repr

/-- The loop of `SpeechService.batch_process_audio` (speech.py lines
221-239) with the iteration index explicit: the outcome of the `i`-th
`process_audio` call (which depends on the shared database session, so
it is an oracle indexed by position) either yields a success entry or
is caught and recorded as a failure entry carrying that item's file
name and the error text; the loop always continues to the next item. -/
def batchLoop (proc : Nat → Except String String) (i : Nat) : List String → List BatchEntry
  | [] => []
  | f :: fs =>
    (match proc i with
     | Except.ok m => BatchEntry.success m
     | Except.error e => BatchEntry.failure f e) :: batchLoop proc (i + 1) fs

/-- `SpeechService.batch_process_audio` (speech.py lines 198-241):
run the loop from the first item. -/
def batch_process_audio (audio_files : List String) (proc : Nat → Except String String) :
    List BatchEntry :=
  batchLoop proc 0 audio_files

/-! ### Helper lemmas -/

theorem isPrefixChars_iff (n h : List Char) : isPrefixChars n h = true ↔ ∃ t, n ++ t = h := by
  induction n generalizing h with
  | nil => simp [isPrefixChars]
  | cons a as ih =>
    cases h with
    | nil => simp [isPrefixChars]
    | cons b bs =>
      simp only [isPrefixChars, Bool.and_eq_true, beq_iff_eq, ih, List.cons_append,
        List.cons.injEq]
      constructor
      · rintro ⟨rfl, t, rfl⟩
        exact ⟨t, rfl, rfl⟩
      · rintro ⟨t, rfl, rfl⟩
        exact ⟨rfl, t, rfl⟩

theorem isSubstring_iff (n h : List Char) : isSubstring n h = true ↔ ∃ s t, s ++ n ++ t = h := by
  induction h with
  | nil => simp [isSubstring, List.isEmpty_iff, List.append_eq_nil]
  | cons c t ih =>
    simp only [isSubstring, Bool.or_eq_true, isPrefixChars_iff, ih]
    constructor
    · rintro (⟨r, hr⟩ | ⟨s, r, hr⟩)
      · exact ⟨[], r, by simpa using hr⟩
      · exact ⟨c :: s, r, by simp [hr]⟩
    · rintro ⟨s, r, hs⟩
      cases s with
      | nil => exact Or.inl ⟨r, by simpa using hs⟩
      | cons c2 s2 =>
        simp only [List.cons_append, List.cons.injEq] at hs
        exact Or.inr ⟨s2, r, hs.2⟩

theorem matchesLine_iff (w : String) (l : SubtitleLine) :
    matchesLine w l = true ↔ ∃ s t, s ++ (strLower w).data ++ t = (strLower l.text).data := by
  simp [matchesLine, isSubstring_iff]

theorem inner_foldl_eq (line : SubtitleLine) (words : List String) (acc : List Match) :
    words.foldl
        (fun acc2 word => if matchesLine word line then acc2 ++ [mkMatch line word] else acc2)
        acc
      = acc ++ (words.filter (fun w => matchesLine w line)).map (mkMatch line) := by
  induction words generalizing acc with
  | nil => simp
  | cons w ws ih =>
    by_cases hw : matchesLine w line
    · simp [hw, ih, List.filter_cons]
    · simp [hw, ih, List.filter_cons]

theorem check_srt_eq (lines : List SubtitleLine) (words : List String) :
    check_srt lines words
      = lines.flatMap (fun l => (words.filter (fun w => matchesLine w l)).map (mkMatch l)) := by
  suffices h : ∀ acc : List Match,
      lines.foldl
          (fun acc line =>
            words.foldl
              (fun acc2 word => if matchesLine word line then acc2 ++ [mkMatch line word] else acc2)
              acc)
          acc
        = acc ++ lines.flatMap (fun l => (words.filter (fun w => matchesLine w l)).map (mkMatch l)) by
    simpa [check_srt] using h []
  induction lines with
  | nil => simp
  | cons l ls ih =>
    intro acc
    rw [List.foldl_cons, inner_foldl_eq, ih, List.flatMap_cons, List.append_assoc]

theorem mem_check_srt (lines : List SubtitleLine) (words : List String) (m : Match) :
    m ∈ check_srt lines words
      ↔ ∃ l ∈ lines, ∃ w ∈ words, matchesLine w l = true ∧ m = mkMatch l w := by
  simp only [check_srt_eq, List.mem_flatMap, List.mem_map, List.mem_filter]
  constructor
  · rintro ⟨l, hl, w, ⟨hw, hm⟩, rfl⟩
    exact ⟨l, hl, w, hw, hm, rfl⟩
  · rintro ⟨l, hl, w, hw, hm, rfl⟩
    exact ⟨l, hl, w, ⟨hw, hm⟩, rfl⟩

theorem extract_foldl (ps : List (Match × Except String String)) (acc : List AudioSegment) :
    ps.foldl
        (fun acc dr =>
          match dr.2 with
          | Except.error _ => acc
          | Except.ok path => acc ++ [⟨dr.1, path⟩])
        acc
      = acc ++ ps.filterMap
          (fun dr =>
            match dr.2 with
            | Except.error _ => none
            | Except.ok path => some ⟨dr.1, path⟩) := by
  induction ps generalizing acc with
  | nil => simp
  | cons p ps ih =>
    obtain ⟨d, r⟩ := p
    cases r with
    | error e => simp [List.filterMap_cons, ih]
    | ok path => simp [List.filterMap_cons, ih]

theorem extract_eq (detections : List Match) (results : List (Except String String)) :
    extract_audio_segments detections results
      = (detections.zip results).filterMap
          (fun dr =>
            match dr.2 with
            | Except.error _ => none
            | Except.ok path => some ⟨dr.1, path⟩) := by
  simpa [extract_audio_segments] using extract_foldl (detections.zip results) []

theorem extract_length : ∀ (detections : List Match) (results : List (Except String String)),
    results.length = detections.length →
    (extract_audio_segments detections results).length
      = detections.length - (results.filter isFailure).length
  | [], [], _ => by simp [extract_eq]
  | [], r :: rs, h => by simp at h
  | d :: ds, [], h => by simp at h
  | d :: ds, r :: rs, h => by
    have h2 : rs.length = ds.length := by simpa using h
    have ih := extract_length ds rs h2
    rw [extract_eq] at ih ⊢
    have hle : (rs.filter isFailure).length ≤ rs.length := List.length_filter_le _ _
    cases r with
    | error e =>
      simp only [List.zip_cons_cons, List.filterMap_cons, List.filter_cons, isFailure,
        List.length_cons, if_pos]
      rw [ih]
      omega
    | ok path =>
      simp only [List.zip_cons_cons, List.filterMap_cons, List.filter_cons, isFailure,
        List.length_cons, if_neg Bool.false_ne_true]
      rw [ih]
      rw [h2] at hle
      omega

theorem mockLoop_getElem (m : String) (ws : List String) (c : ℚ) (i : Nat) :
    (mockLoop m c ws)[i]?
      = (ws[i]?).map (fun w => ⟨m, w, c + 3 * (i : ℚ), c + 3 * (i : ℚ) + 2⟩) := by
  induction ws generalizing c i with
  | nil => simp [mockLoop]
  | cons w ws ih =>
    cases i with
    | zero => simp [mockLoop]
    | succ j =>
      rw [mockLoop, List.getElem?_cons_succ, List.getElem?_cons_succ, ih]
      congr 1
      funext w
      simp only [SpeechRecord.mk.injEq, true_and]
      exact ⟨by push_cast; ring, by push_cast; ring⟩

theorem batchLoop_length (proc : Nat → Except String String) (i : Nat) (fs : List String) :
    (batchLoop proc i fs).length = fs.length := by
  induction fs generalizing i with
  | nil => simp [batchLoop]
  | cons f fs ih => simp [batchLoop, ih]

theorem batchLoop_getElem (proc : Nat → Except String String) (fs : List String) (i j : Nat) :
    (batchLoop proc i fs)[j]?
      = (fs[j]?).map
          (fun f =>
            match proc (i + j) with
            | Except.ok m => BatchEntry.success m
            | Except.error e => BatchEntry.failure f e) := by
  induction fs generalizing i j with
  | nil => simp [batchLoop]
  | cons f fs ih =>
    cases j with
    | zero => simp [batchLoop]
    | succ j2 =>
      rw [batchLoop, List.getElem?_cons_succ, List.getElem?_cons_succ, ih]
      have harith : i + 1 + j2 = i + (j2 + 1) := by omega
      rw [harith]

theorem allocate_loop_spec (rand : Nat → Nat) :
    ∀ (fuel k : Nat) (used : Finset Nat) (c k2 : Nat),
      allocate_loop rand fuel k used = some (c, k2) →
      c ∉ used ∧ 1 ≤ c ∧ c ≤ 1001 := by
  intro fuel
  induction fuel with
  | zero => intro k used c k2 h; simp [allocate_loop] at h
  | succ f ih =>
    intro k used c k2 h
    rw [allocate_loop] at h
    by_cases hc : randint_1_1001 rand k ∈ used
    · rw [if_pos hc] at h
      exact ih (k + 1) used c k2 h
    · rw [if_neg hc] at h
      obtain ⟨rfl, rfl⟩ : randint_1_1001 rand k = c ∧ k + 1 = k2 := by
        simpa using h
      refine ⟨hc, by simp [randint_1_1001], ?_⟩
      have hmod : rand k % 1001 < 1001 := Nat.mod_lt _ (by omega)
      simp only [randint_1_1001]
      omega

theorem allocate_spec (rand : Nat → Nat) (fuel k : Nat) (used : Finset Nat)
    (c k2 : Nat) (used2 : Finset Nat)
    (h : allocate rand fuel k used = some (c, k2, used2)) :
    c ∉ used ∧ 1 ≤ c ∧ c ≤ 1001 ∧ used2 = insert c used := by
  rw [allocate] at h
  cases hl : allocate_loop rand fuel k used with
  | none => rw [hl] at h; simp at h
  | some p =>
    obtain ⟨c0, k0⟩ := p
    rw [hl] at h
    simp only [Option.some.injEq, Prod.mk.injEq] at h
    obtain ⟨rfl, rfl, rfl⟩ := h
    have := allocate_loop_spec rand fuel k used c0 k0 hl
    exact ⟨this.1, this.2.1, this.2.2, rfl⟩

theorem process_audio_ids_spec (rand : Nat → Nat) (fuel : Nat) :
    ∀ (n k : Nat) (used : Finset Nat) (ids : List Nat),
      process_audio_ids rand fuel n k used = some ids →
      ids.Nodup ∧ (∀ x ∈ ids, x ∉ used) ∧ ids.length = n := by
  intro n
  induction n with
  | zero =>
    intro k used ids h
    simp only [process_audio_ids, Option.some.injEq] at h
    subst h
    simp
  | succ n ih =>
    intro k used ids h
    rw [process_audio_ids] at h
    cases ha : allocate rand fuel k used with
    | none => rw [ha] at h; simp at h
    | some t =>
      obtain ⟨c, k2, used2⟩ := t
      rw [ha] at h
      have h2 : Option.map (fun l => c :: l) (process_audio_ids rand fuel n k2 used2)
          = some ids := h
      cases hrec : process_audio_ids rand fuel n k2 used2 with
      | none =>
        rw [hrec] at h2
        have h3 : (none : Option (List ℕ)) = some ids := h2
        simp at h3
      | some l =>
        rw [hrec] at h2
        have h3 : some (c :: l) = some ids := h2
        have h4 : c :: l = ids := by injection h3
        subst h4
        obtain ⟨hnd, hfresh, hlen⟩ := ih k2 used2 l hrec
        obtain ⟨hcused, _, _, rfl⟩ := allocate_spec rand fuel k used c k2 used2 ha
        refine ⟨?_, ?_, by simp [hlen]⟩
        · refine List.nodup_cons.mpr ⟨?_, hnd⟩
          intro hcl
          exact hfresh c hcl (Finset.mem_insert_self c used)
        · intro x hx
          rcases List.mem_cons.mp hx with rfl | hxl
          · exact hcused
          · intro hxu
            exact hfresh x hxl (Finset.mem_insert_of_mem hxu)

theorem replaceCommaDot_no_comma (s : String) : ',' ∉ (replaceCommaDot s).data := by
  simp only [replaceCommaDot, List.mem_map, not_exists]
  intro c
  rintro ⟨hc, heq⟩
  by_cases h : c = ','
  · rw [if_pos h] at heq
    exact absurd heq (by decide)
  · rw [if_neg h] at heq
    exact h heq

/-! ### Claim theorems -/

/-- C2: for every ordered sequence of subtitle lines and every word list,
`check_srt` emits its records in (line, word) iteration order — outer
loop over lines, inner over words, keeping every hit of a line and of a
word with no deduplication — and a record is emitted for a pair
(line, word) if and only if the lowercased word occurs as a substring
of the lowercased line text. -/
theorem check_srt_matches_iff_substring (lines : List SubtitleLine) (words : List String) :
    check_srt lines words
      = lines.flatMap (fun l => (words.filter (fun w => matchesLine w l)).map (mkMatch l))
    ∧ ∀ m : Match,
        m ∈ check_srt lines words
          ↔ ∃ l ∈ lines, ∃ w ∈ words,
              (∃ s t, s ++ (strLower w).data ++ t = (strLower l.text).data) ∧ m = mkMatch l w := by
  refine ⟨check_srt_eq lines words, fun m => ?_⟩
  rw [mem_check_srt]
  simp only [matchesLine_iff]

/-- C4: for every match, the extractor's ffmpeg argument vector seeks to
the match's `start_time` (the value after `-ss`), passes the match's
`stop_time` field verbatim as the duration (the value after `-t`), and
carries the fixed lossy codec `libmp3lame`, the fixed `320k` bitrate,
the output path and the `-y` overwrite instruction. -/
theorem build_command_fields (video_path : String) (detection : Match) (output_file : String) :
    (build_command video_path detection output_file)[1]? = some "-ss"
    ∧ (build_command video_path detection output_file)[2]? = some detection.start_time
    ∧ (build_command video_path detection output_file)[5]? = some "-t"
    ∧ (build_command video_path detection output_file)[6]? = some detection.stop_time
    ∧ "libmp3lame" ∈ build_command video_path detection output_file
    ∧ "320k" ∈ build_command video_path detection output_file
    ∧ "-y" ∈ build_command video_path detection output_file
    ∧ output_file ∈ build_command video_path detection output_file := by
  simp [build_command]

/-- C6: every start/stop timestamp string emitted by the matcher uses a
point, never a comma, as the fractional separator; in particular the
time rendered by pysrt as `00:00:05,250` is emitted as `00:00:05.250`. -/
theorem matcher_times_no_comma :
    (∀ (lines : List SubtitleLine) (words : List String) (m : Match),
        m ∈ check_srt lines words →
        ',' ∉ m.start_time.data ∧ ',' ∉ m.stop_time.data)
    ∧ fmtTime ⟨0, 0, 5, 250⟩ = "00:00:05.250" := by
  refine ⟨?_, by decide⟩
  intro lines words m hm
  obtain ⟨l, _, w, _, _, rfl⟩ := (mem_check_srt lines words m).mp hm
  exact ⟨replaceCommaDot_no_comma _, replaceCommaDot_no_comma _⟩

/-- C10: a word list containing the empty string makes the matcher pair
the empty-string word with every subtitle line, since the empty string
is a substring of every line text. -/
theorem check_srt_empty_word (lines : List SubtitleLine) (words : List String)
    (h : "" ∈ words) (line : SubtitleLine) (hl : line ∈ lines) :
    mkMatch line "" ∈ check_srt lines words ∧ (mkMatch line "").word = "" := by
  refine ⟨?_, rfl⟩
  rw [mem_check_srt]
  refine ⟨line, hl, "", h, ?_, rfl⟩
  rw [matchesLine_iff]
  refine ⟨[], (strLower line.text).data, ?_⟩
  have hempty : (strLower "").data = [] := by decide
  rw [hempty]
  simp

/-- C10 witness: with one line `hello` and the word list `["x", ""]`,
the empty word is in the list and its pairing with the line is among
the matcher's output. -/
theorem check_srt_empty_word_witness :
    ("" ∈ (["x", ""] : List String))
    ∧ (mkMatch ⟨⟨0, 0, 1, 0⟩, ⟨0, 0, 2, 0⟩, "hello"⟩ ""
          ∈ check_srt [⟨⟨0, 0, 1, 0⟩, ⟨0, 0, 2, 0⟩, "hello"⟩] ["x", ""]
        ∧ (mkMatch ⟨⟨0, 0, 1, 0⟩, ⟨0, 0, 2, 0⟩, "hello"⟩ "").word = "") := by
  exact ⟨by decide,
    check_srt_empty_word [⟨⟨0, 0, 1, 0⟩, ⟨0, 0, 2, 0⟩, "hello"⟩] ["x", ""]
      (by decide) ⟨⟨0, 0, 1, 0⟩, ⟨0, 0, 2, 0⟩, "hello"⟩ (by decide)⟩

/-- C6 witness: a concrete matcher run whose emitted record has
comma-free times, with the membership hypothesis discharged by
evaluation. -/
theorem matcher_times_no_comma_witness :
    (mkMatch ⟨⟨0, 0, 5, 250⟩, ⟨0, 0, 7, 0⟩, "bad"⟩ "bad"
        ∈ check_srt [⟨⟨0, 0, 5, 250⟩, ⟨0, 0, 7, 0⟩, "bad"⟩] ["bad"])
    ∧ ',' ∉ (mkMatch ⟨⟨0, 0, 5, 250⟩, ⟨0, 0, 7, 0⟩, "bad"⟩ "bad").start_time.data
    ∧ ',' ∉ (mkMatch ⟨⟨0, 0, 5, 250⟩, ⟨0, 0, 7, 0⟩, "bad"⟩ "bad").stop_time.data := by
  have hm : mkMatch ⟨⟨0, 0, 5, 250⟩, ⟨0, 0, 7, 0⟩, "bad"⟩ "bad"
      ∈ check_srt [⟨⟨0, 0, 5, 250⟩, ⟨0, 0, 7, 0⟩, "bad"⟩] ["bad"] := by decide
  have hc := matcher_times_no_comma.1 [⟨⟨0, 0, 5, 250⟩, ⟨0, 0, 7, 0⟩, "bad"⟩] ["bad"] _ hm
  exact ⟨hm, hc.1, hc.2⟩

/-- C1 counterexample: the claim also covers allocations made across the
orchestrator's concurrent extraction tasks, but each
`extract_audio_segment_async` task draws `random.randint(1, 1001)` with
no shared used-id set, so a batch of two tasks whose raw draws coincide
receives the same identifier twice: the batch of 2 has duplicate ids. -/
theorem orchestrator_ids_can_collide :
    orchestrator_batch_ids (fun _ => 0) 2 = [1, 1]
    ∧ ¬ (orchestrator_batch_ids (fun _ => 0) 2).Nodup := by
  exact ⟨by decide, by decide⟩

/-- C1 (amended): in the sequential `process_audio` endpoint batch,
whose retry loop consults the batch's `gen_number_set`, the ids of a
completed batch of N allocations are pairwise distinct: the list has no
duplicate and its underlying set has exactly N elements.  (The
orchestrator's concurrent tasks share no used-id set and can
duplicate.) -/
theorem process_audio_ids_distinct (rand : Nat → Nat) (fuel n k : Nat) (ids : List Nat)
    (h : process_audio_ids rand fuel n k ∅ = some ids) :
    ids.Nodup ∧ ids.toFinset.card = n ∧ ids.length = n := by
  obtain ⟨hnd, _, hlen⟩ := process_audio_ids_spec rand fuel n k ∅ ids h
  exact ⟨hnd, by rw [List.toFinset_card_of_nodup hnd, hlen], hlen⟩

/-- C1 witness: a concrete 3-allocation batch returning ids 1, 2, 3,
with the completion hypothesis discharged by evaluation. -/
theorem process_audio_ids_distinct_witness :
    process_audio_ids (fun j => j) 2 3 0 ∅ = some [1, 2, 3]
    ∧ ([1, 2, 3] : List ℕ).Nodup
    ∧ ([1, 2, 3] : List ℕ).toFinset.card = 3
    ∧ ([1, 2, 3] : List ℕ).length = 3 := by
  have h : process_audio_ids (fun j => j) 2 3 0 ∅ = some [1, 2, 3] := by decide
  have hc := process_audio_ids_distinct (fun j => j) 2 3 0 [1, 2, 3] h
  exact ⟨h, hc.1, hc.2.1, hc.2.2⟩

/-- C3: the orchestrator keeps exactly the matches whose extraction task
succeeded, in order, pairing each with its output path; when exactly one
of K gathered results is an exception, the returned batch has exactly
K - 1 segments (and the batch call returns it rather than raising). -/
theorem extract_audio_segments_drops_only_failures
    (detections : List Match) (results : List (Except String String))
    (hlen : results.length = detections.length)
    (hone : (results.filter isFailure).length = 1) :
    (extract_audio_segments detections results).length = detections.length - 1
    ∧ extract_audio_segments detections results
        = (detections.zip results).filterMap
            (fun dr =>
              match dr.2 with
              | Except.error _ => none
              | Except.ok path => some ⟨dr.1, path⟩) := by
  refine ⟨?_, extract_eq detections results⟩
  rw [extract_length detections results hlen, hone]

/-- C3 witness: three detections, the middle extraction fails, the
returned batch has exactly two segments. -/
theorem extract_audio_segments_drops_only_failures_witness :
    ([Except.ok "p1", Except.error "boom", Except.ok "p3"] :
        List (Except String String)).length
      = ([⟨"a", "1", "2", "c"⟩, ⟨"b", "3", "4", "d"⟩, ⟨"e", "5", "6", "f"⟩] :
          List Match).length
    ∧ (([Except.ok "p1", Except.error "boom", Except.ok "p3"] :
          List (Except String String)).filter isFailure).length = 1
    ∧ (extract_audio_segments
          [⟨"a", "1", "2", "c"⟩, ⟨"b", "3", "4", "d"⟩, ⟨"e", "5", "6", "f"⟩]
          [Except.ok "p1", Except.error "boom", Except.ok "p3"]).length
        = ([⟨"a", "1", "2", "c"⟩, ⟨"b", "3", "4", "d"⟩, ⟨"e", "5", "6", "f"⟩] :
            List Match).length - 1 := by
  refine ⟨by decide, by decide, ?_⟩
  exact (extract_audio_segments_drops_only_failures
    [⟨"a", "1", "2", "c"⟩, ⟨"b", "3", "4", "d"⟩, ⟨"e", "5", "6", "f"⟩]
    [Except.ok "p1", Except.error "boom", Except.ok "p3"]
    (by decide) (by decide)).1

/-- C5 counterexample: Python's `random.randint(1, 1001)` includes both
endpoints, so with a raw draw of 1000 the allocator returns 1001, which
lies outside the documented range 1..1000. -/
theorem allocate_returns_1001 :
    allocate (fun _ => 1000) 1 0 ∅ = some (1001, 1, insert 1001 ∅)
    ∧ ¬ (1001 ≤ 1000) := by
  exact ⟨by decide, by decide⟩

/-- C5 (amended): every completed call of the endpoint's allocator
returns an integer in the inclusive range 1..1001 (not 1..1000: the
code calls `random.randint(1, 1001)`, whose upper endpoint is included)
that is not already in the batch's used-id set, and the set it hands
back is the old set with the returned integer added. -/
theorem allocate_in_range_fresh (rand : Nat → Nat) (fuel k : Nat) (used : Finset Nat)
    (c k2 : Nat) (used2 : Finset Nat)
    (h : allocate rand fuel k used = some (c, k2, used2)) :
    1 ≤ c ∧ c ≤ 1001 ∧ c ∉ used ∧ used2 = insert c used := by
  obtain ⟨h1, h2, h3, h4⟩ := allocate_spec rand fuel k used c k2 used2 h
  exact ⟨h2, h3, h1, h4⟩

/-- C5 witness: a concrete allocation whose draw is fresh, with the
completion hypothesis discharged by evaluation. -/
theorem allocate_in_range_fresh_witness :
    allocate (fun _ => 4) 1 0 ∅ = some (5, 1, insert 5 ∅)
    ∧ 1 ≤ 5 ∧ 5 ≤ 1001 ∧ (5 : ℕ) ∉ (∅ : Finset ℕ)
    ∧ insert 5 (∅ : Finset ℕ) = insert 5 (∅ : Finset ℕ) := by
  have h : allocate (fun _ => 4) 1 0 ∅ = some (5, 1, insert 5 ∅) := by decide
  have hc := allocate_in_range_fresh (fun _ => 4) 1 0 ∅ 5 1 (insert 5 ∅) h
  exact ⟨h, hc.1, hc.2.1, hc.2.2.1, hc.2.2.2⟩

/-- C7: the mock transcription stub gives the word at position i the
interval from i * 3.0 to i * 3.0 + 2.0 seconds, as a pure function of
the word sequence; a three-word input yields exactly the intervals
(0, 2), (3, 5), (6, 8). -/
theorem mock_timestamps_intervals :
    (∀ (m : String) (ws : List String) (i : Nat),
        (mock_process_timestamps m ws)[i]?
          = (ws[i]?).map (fun w => ⟨m, w, (i : ℚ) * 3, (i : ℚ) * 3 + 2⟩))
    ∧ mock_process_timestamps "X" ["a", "b", "c"]
        = [⟨"X", "a", 0, 2⟩, ⟨"X", "b", 3, 5⟩, ⟨"X", "c", 6, 8⟩] := by
  constructor
  · intro m ws i
    rw [mock_process_timestamps, mockLoop_getElem]
    congr 1
    funext w
    simp only [SpeechRecord.mk.injEq, true_and]
    exact ⟨by ring, by ring⟩
  · simp [mock_process_timestamps, mockLoop]
    norm_num

/-- C8: consecutive records produced by the mock transcription stub do
not overlap: each record's start time strictly exceeds the previous
record's stop time. -/
theorem mock_timestamps_strictly_increasing (m : String) (ws : List String) (i : Nat)
    (r r2 : SpeechRecord)
    (h1 : (mock_process_timestamps m ws)[i]? = some r)
    (h2 : (mock_process_timestamps m ws)[i + 1]? = some r2) :
    r.movie_stop_time < r2.movie_start_time := by
  rw [mock_process_timestamps, mockLoop_getElem] at h1 h2
  cases hw1 : ws[i]? with
  | none => rw [hw1] at h1; simp at h1
  | some w1 =>
    cases hw2 : ws[i + 1]? with
    | none => rw [hw2] at h2; simp at h2
    | some w2 =>
      rw [hw1] at h1
      rw [hw2] at h2
      simp only [Option.map_some', Option.some.injEq] at h1 h2
      subst h1
      subst h2
      simp only
      push_cast
      linarith

/-- C8 witness: a concrete two-word run; the first interval stops at 2
and the second starts at 3. -/
theorem mock_timestamps_strictly_increasing_witness :
    (mock_process_timestamps "X" ["a", "b"])[0]?
        = some ⟨"X", "a", (0 : ℚ) + 3 * 0, (0 : ℚ) + 3 * 0 + 2⟩
    ∧ (mock_process_timestamps "X" ["a", "b"])[0 + 1]?
        = some ⟨"X", "b", (0 : ℚ) + 3 * 1, (0 : ℚ) + 3 * 1 + 2⟩
    ∧ ((0 : ℚ) + 3 * 0 + 2) < ((0 : ℚ) + 3 * 1) := by
  have h1 : (mock_process_timestamps "X" ["a", "b"])[0]?
      = some ⟨"X", "a", (0 : ℚ) + 3 * 0, (0 : ℚ) + 3 * 0 + 2⟩ := by
    simp [mock_process_timestamps, mockLoop]
  have h2 : (mock_process_timestamps "X" ["a", "b"])[0 + 1]?
      = some ⟨"X", "b", (0 : ℚ) + 3 * 1, (0 : ℚ) + 3 * 1 + 2⟩ := by
    simp [mock_process_timestamps, mockLoop]
  exact ⟨h1, h2, mock_timestamps_strictly_increasing "X" ["a", "b"] 0 _ _ h1 h2⟩

/-- C9: the batch transcription variant produces one entry per input
item in order: position j of the output holds the success value of the
j-th per-item call when that call succeeded, and a failure entry
carrying the j-th file name and the error text when it failed, so a
per-item failure never aborts the rest of the batch. -/
theorem batch_process_audio_per_item (audio_files : List String)
    (proc : Nat → Except String String) :
    (batch_process_audio audio_files proc).length = audio_files.length
    ∧ ∀ j : Nat,
        (batch_process_audio audio_files proc)[j]?
          = (audio_files[j]?).map
              (fun f =>
                match proc j with
                | Except.ok m2 => BatchEntry.success m2
                | Except.error e => BatchEntry.failure f e) := by
  refine ⟨batchLoop_length proc 0 audio_files, fun j => ?_⟩
  rw [batch_process_audio, batchLoop_getElem]
  simp

end MPD
